import Mathlib

/-!
Shallow embedding of `circular_deque.h`: a fixed-capacity double-ended queue
backed by a ring buffer of `N` slots with two cursor indices.  Machine indices
(`std::size_t`) stay far below `2^64` here (they are always in `[0, N)`), so
they are modelled as `ℕ`.  The backing `std::array` is modelled as a total
function `ℕ → α`; it is value-initialized at construction (`array {}`), hence
every slot initially holds `default`.  A destructor call does not change the
mathematical value stored in a slot; which slots have their destructor invoked
by `pop_back`/`pop_front`/`clear` is recorded by the companion
`*_destroyed` definitions, read off the same source lines.
-/

structure circular_deque (α : Type) (N : ℕ) where
  count : ℕ
  back_index : ℕ
  front_index : ℕ
  array : ℕ → α

namespace circular_deque

variable {α : Type} {N : ℕ}

/-- Source constant `first_index = 0`. -/
def first_index : ℕ := 0

/-- Source constant `last_index = capacity - 1`. -/
def last_index (N : ℕ) : ℕ := N - 1

/-- Source constant `initial_back_index = capacity / 2`. -/
def initial_back_index (N : ℕ) : ℕ := N / 2

/-- Source constant `initial_front_index = (capacity / 2) - 1`. -/
def initial_front_index (N : ℕ) : ℕ := N / 2 - 1

/-- Source: `(back_index > first_index) ? (back_index - 1) : last_index`. -/
def previous_back_index (N i : ℕ) : ℕ := if 0 < i then i - 1 else last_index N

/-- Source: `(back_index < last_index) ? (back_index + 1) : first_index`. -/
def next_back_index (N i : ℕ) : ℕ := if i < last_index N then i + 1 else first_index

/-- Source: `(front_index < last_index) ? (front_index + 1) : first_index`. -/
def previous_front_index (N i : ℕ) : ℕ := if i < last_index N then i + 1 else first_index

/-- Source: `(front_index > first_index) ? (front_index - 1) : last_index`. -/
def next_front_index (N i : ℕ) : ℕ := if 0 < i then i - 1 else last_index N

/-- Source: `size()` returns `count`. -/
def size (s : circular_deque α N) : ℕ := s.count

/-- Source: `max_size()` returns `capacity`. -/
def max_size (_s : circular_deque α N) : ℕ := N

/-- Source: `empty()` is `size() == 0`. -/
def empty (s : circular_deque α N) : Bool := s.size == 0

/-- Source: `full()` is `size() == max_size()`. -/
def full (s : circular_deque α N) : Bool := s.size == s.max_size

/-- Source: `back()` returns `array[previous_back_index()]`. -/
def back (s : circular_deque α N) : α := s.array (previous_back_index N s.back_index)

/-- Source: `front()` returns `array[previous_front_index()]`. -/
def front (s : circular_deque α N) : α := s.array (previous_front_index N s.front_index)

/-- Source: `begin_index()` returns `previous_front_index()`; `begin()` is an iterator at this index. -/
def begin_index (s : circular_deque α N) : ℕ := previous_front_index N s.front_index

/-- Source: `end_index()` returns `back_index`; `end()` is an iterator at this index. -/
def end_index (s : circular_deque α N) : ℕ := s.back_index

/-- Source `push_back`: write `value` at `back_index`, advance `back_index` via
`next_back_index`, increment `count`. -/
def push_back (s : circular_deque α N) (v : α) : circular_deque α N :=
  { s with
      array := Function.update s.array s.back_index v
      back_index := next_back_index N s.back_index
      count := s.count + 1 }

/-- Source `push_front`: write `value` at `front_index`, advance `front_index` via
`next_front_index`, increment `count`. -/
def push_front (s : circular_deque α N) (v : α) : circular_deque α N :=
  { s with
      array := Function.update s.array s.front_index v
      front_index := next_front_index N s.front_index
      count := s.count + 1 }

/-- Source `pop_back`: invoke the destructor on `array[back_index]` (recorded by
`pop_back_destroyed`), retract `back_index` via `previous_back_index`, decrement `count`. -/
def pop_back (s : circular_deque α N) : circular_deque α N :=
  { s with
      back_index := previous_back_index N s.back_index
      count := s.count - 1 }

/-- Index whose destructor `pop_back` invokes: source line
`this->array[this->back_index].~value_type();`. -/
def pop_back_destroyed (s : circular_deque α N) : ℕ := s.back_index

/-- Source `pop_front`: invoke the destructor on `array[front_index]` (recorded by
`pop_front_destroyed`), retract `front_index` via `previous_front_index`, decrement `count`. -/
def pop_front (s : circular_deque α N) : circular_deque α N :=
  { s with
      front_index := previous_front_index N s.front_index
      count := s.count - 1 }

/-- Index whose destructor `pop_front` invokes: source line
`this->array[this->front_index].~value_type();`. -/
def pop_front_destroyed (s : circular_deque α N) : ℕ := s.front_index

/-- Source `clear`: destructor passes (recorded by `clear_destroyed`), reset `count`
to `0` when it was positive, and always restore both cursors to their initial values. -/
def clear (s : circular_deque α N) : circular_deque α N :=
  { s with
      count := 0
      back_index := initial_back_index N
      front_index := initial_front_index N }

/-- Indices destroyed by `clear`, in order: when `count > 0`, either the single loop
`for (index = front_index; index < back_index; ++index)` or the two loops
`for (index = front_index; index < capacity; ++index)` then
`for (index = first_index; index < back_index; ++index)`. -/
def clear_destroyed (s : circular_deque α N) : List ℕ :=
  if 0 < s.count then
    if s.front_index < s.back_index then
      List.range' s.front_index (s.back_index - s.front_index)
    else
      List.range' s.front_index (N - s.front_index)
        ++ List.range' first_index (s.back_index - first_index)
  else []

/-- Source `contains`: returns `false` when empty, else scans
`[front_index, back_index)` linearly, or `[front_index, capacity)` then
`[first_index, back_index)` when the indices have swapped around.  In the swapped
branch the source reads `array[i]` where `i` is undeclared (the loop variable is
`index`); it is embedded here as the loop variable `index`. -/
def contains [DecidableEq α] (s : circular_deque α N) (v : α) : Bool :=
  if s.empty then false
  else if s.front_index < s.back_index then
    (List.range' s.front_index (s.back_index - s.front_index)).any fun i => s.array i == v
  else
    ((List.range' s.front_index (N - s.front_index)).any fun i => s.array i == v)
      || ((List.range' first_index (s.back_index - first_index)).any fun i => s.array i == v)

/-- Default-constructed deque: `count = 0`, cursors at their initial positions,
every storage slot value-initialized (`array {}`). -/
def initial (α : Type) [Inhabited α] (N : ℕ) : circular_deque α N :=
  { count := 0
    back_index := initial_back_index N
    front_index := initial_front_index N
    array := fun _ => default }

/-- Forward iteration: starting at ring index `i`, repeatedly dereference and step via
`next_back_index` (the iterator's `operator++`) until the index equals `end_index`.
The `fuel` argument bounds the number of steps; `toList` supplies fuel `N`, which is
enough for every reachable state (the loop from `begin()` reaches `end()` in at most
`N - 1` steps, or stops at once when `begin() = end()`). -/
def iterCollect (s : circular_deque α N) : ℕ → ℕ → List α
  | 0, _ => []
  | fuel + 1, i => if i = s.end_index then [] else s.array i :: iterCollect s fuel (next_back_index N i)

/-- Elements visited by stepping an iterator forward from `begin()` until it equals
`end()`, in visit order. -/
def toList (s : circular_deque α N) : List α := iterCollect s N s.begin_index

end circular_deque

/-- Operations on the deque, for reasoning about arbitrary interleavings. -/
inductive Op (α : Type) where
  | pushB : α → Op α
  | pushF : α → Op α
  | popB : Op α
  | popF : Op α

namespace circular_deque

/-- Apply one operation to the deque state. -/
def applyOp (op : Op α) (s : circular_deque α N) : circular_deque α N :=
  match op with
  | .pushB v => s.push_back v
  | .pushF v => s.push_front v
  | .popB => s.pop_back
  | .popF => s.pop_front

/-- Precondition asserted by the source for each operation: pushes require
`!full()`, pops require `!empty()`. -/
def preOp (op : Op α) (s : circular_deque α N) : Bool :=
  match op with
  | .pushB _ => !s.full
  | .pushF _ => !s.full
  | .popB => !s.empty
  | .popF => !s.empty

/-- A sequence of operations is valid from `s` when every operation's source
precondition holds in the state it is applied to. -/
def valid : circular_deque α N → List (Op α) → Bool
  | _, [] => true
  | s, op :: rest => preOp op s && valid (applyOp op s) rest

/-- Run a sequence of operations from state `s`. -/
def runOps : circular_deque α N → List (Op α) → circular_deque α N
  | s, [] => s
  | s, op :: rest => runOps (applyOp op s) rest

/-- Abstract deque model, following the spec's words: the front-to-back list of the
surviving pushes.  `push_back` appends at the back, `push_front` prepends at the
front, `pop_back` drops the last survivor, `pop_front` drops the first. -/
def modelOp (op : Op α) (l : List α) : List α :=
  match op with
  | .pushB v => l ++ [v]
  | .pushF v => v :: l
  | .popB => l.dropLast
  | .popF => l.drop 1

/-- Run a sequence of operations on the abstract model. -/
def modelRun : List α → List (Op α) → List α
  | l, [] => l
  | l, op :: rest => modelRun (modelOp op l) rest

/-- Refinement relation between the abstract front-to-back list `l` and a concrete
deque state: the count is the length, both cursors are in range, the back cursor is
one ring step past the last live slot, and the `k`-th live element sits at ring index
`front_index + 1 + k` (mod `N`). -/
def Rel (l : List α) (s : circular_deque α N) : Prop :=
  s.count = l.length ∧ l.length ≤ N ∧ s.front_index < N ∧ s.back_index < N ∧
  s.back_index = (s.front_index + s.count + 1) % N ∧
  ∀ k, (hk : k < l.length) → s.array ((s.front_index + 1 + k) % N) = l[k]

/-- Predicate singling out the push operations. -/
def isPush : Op α → Bool
  | .pushB _ => true
  | .pushF _ => true
  | .popB => false
  | .popF => false

/-- Number of push operations in a sequence. -/
def countPushes (ops : List (Op α)) : ℕ := (ops.filter isPush).length

/-- Number of pop operations in a sequence. -/
def countPops (ops : List (Op α)) : ℕ := (ops.filter fun op => !isPush op).length

/-- Concrete scenario state: `N = 3`, after `push_back(1); push_back(2); push_front(0)`. -/
def scenarioA : circular_deque ℕ 3 := (((initial ℕ 3).push_back 1).push_back 2).push_front 0

/-- Concrete scenario state: `scenarioA` after a further `pop_back()`. -/
def scenarioB : circular_deque ℕ 3 := scenarioA.pop_back

/-- Concrete scenario state: `scenarioB` after a further `push_back(9)`. -/
def scenarioC : circular_deque ℕ 3 := scenarioB.push_back 9

/-- Concrete state: `N = 3`, after a single `push_back(7)`; the only live slot is
ring index `1`, with `front_index = 0` and `back_index = 2`. -/
def oneBack : circular_deque ℕ 3 := (initial ℕ 3).push_back 7

/-- Concrete state: `N = 3`, after a single `push_front(7)`; the only live slot is
ring index `0`, with `front_index = 2` and `back_index = 1`. -/
def oneFront : circular_deque ℕ 3 := (initial ℕ 3).push_front 7

/-- Concrete operation sequence: three `push_front` calls filling an `N = 3` deque. -/
def fullFrontOps : List (Op ℕ) := [Op.pushF 5, Op.pushF 6, Op.pushF 7]

/-- Concrete state: `N = 3` deque filled by `fullFrontOps`; all three slots are live,
with `front_index = 0` and `back_index = 1`. -/
def fullFront : circular_deque ℕ 3 := runOps (initial ℕ 3) fullFrontOps

/-- Concrete operation sequence: two `push_back` calls filling an `N = 2` deque. -/
def fullTwoOps : List (Op ℕ) := [Op.pushB 1, Op.pushB 2]

/-- Concrete mixed operation sequence used to instantiate the general theorems. -/
def mixedOps : List (Op ℕ) := [Op.pushB 1, Op.pushF 2, Op.popB, Op.pushB 4]

end circular_deque

open circular_deque

/-- C1: `pop_back` is claimed to destroy the live element at `previous_back_index`
(the slot `back()` returns) and `pop_front` the live element at
`previous_front_index` (the slot `front()` returns).  The code instead invokes the
destructor on `array[back_index]` (resp. `array[front_index]`) — the dead
next-write slot one past the live boundary — before retracting the cursor.  On
`N = 3` after `push_back(7)`: the live back element `7` sits at ring index `1`
(where `back()` reads), but `pop_back` destroys slot `2`, which was never written;
symmetrically for `pop_front`.  The cursor retraction and count decrement do match
the claim. -/
theorem C1_pop_destroys_dead_slot :
    back oneBack = 7
      ∧ previous_back_index 3 oneBack.back_index = 1
      ∧ oneBack.array 1 = 7
      ∧ pop_back_destroyed oneBack = 2
      ∧ oneBack.array 2 = 0
      ∧ oneBack.pop_back.back_index = 1 ∧ oneBack.pop_back.count = 0
      ∧ front oneFront = 7
      ∧ previous_front_index 3 oneFront.front_index = 0
      ∧ oneFront.array 0 = 7
      ∧ pop_front_destroyed oneFront = 2
      ∧ oneFront.array 2 = 0
      ∧ oneFront.pop_front.front_index = 0 ∧ oneFront.pop_front.count = 0 := by
  decide

/-- C2: the claimed scenario fails on the code at the two full states: after
`push_back(1); push_back(2); push_front(0)` the deque is full, so
`begin() == end()` and forward iteration yields `[]`, not `[0,1,2]`; likewise
after the final `push_back(9)` it yields `[]`, not `[0,1,9]`. -/
theorem C2_full_iteration_counterexample :
    ¬ (size scenarioA = 3 ∧ full scenarioA = true ∧ front scenarioA = 0
        ∧ back scenarioA = 2 ∧ toList scenarioA = [0, 1, 2]
        ∧ size scenarioB = 2 ∧ back scenarioB = 1
        ∧ full scenarioC = true ∧ toList scenarioC = [0, 1, 9]) := by
  decide

/-- C2 (amended): for `N = 3`, `push_back(1); push_back(2); push_front(0)` yields
`size() == 3`, `full() == true`, `front() == 0`, `back() == 2`, but forward
iteration from `begin()` to `end()` yields `[]` because `begin() == end()` when the
deque is full; a subsequent `pop_back()` yields `size() == 2` and `back() == 1`; a
subsequent `push_back(9)` yields `full() == true` and forward iteration again
yields `[]`. -/
theorem C2_scenario_amended :
    size scenarioA = 3 ∧ full scenarioA = true ∧ front scenarioA = 0
      ∧ back scenarioA = 2
      ∧ begin_index scenarioA = end_index scenarioA ∧ toList scenarioA = []
      ∧ size scenarioB = 2 ∧ back scenarioB = 1
      ∧ full scenarioC = true
      ∧ begin_index scenarioC = end_index scenarioC ∧ toList scenarioC = [] := by
  decide

/-- C3: the claimed order invariant fails once the deque is full: on `N = 2`,
`push_back(1); push_back(2)` is a valid interleaving whose surviving pushes are
`[1, 2]`, yet stepping an iterator forward from `begin()` stops immediately
(`begin() == end()` when full) and visits no element. -/
theorem C3_full_iteration_counterexample :
    valid (initial ℕ 2) fullTwoOps = true
      ∧ modelRun [] fullTwoOps = [1, 2]
      ∧ toList (runOps (initial ℕ 2) fullTwoOps) = [] := by
  decide

/-- C4: `clear` is claimed to destroy exactly the live slots.  The code's
destruction passes instead run from `front_index` — the dead next-write slot — up
to `back_index`: on `N = 3` after `push_back(7)` the only live slot is ring index
`1` (the half-open live window is `[1, 2)`), yet `clear` destroys slots `0` and
`1`; and on a full `N = 3` deque built by three `push_front` calls, all three
slots are live yet `clear` destroys only slot `0`.  The cursor/count reset to the
initial centered placement does match the claim. -/
theorem C4_clear_destroys_wrong_slots :
    begin_index oneBack = 1 ∧ end_index oneBack = 2
      ∧ toList oneBack = [7]
      ∧ clear_destroyed oneBack = [0, 1]
      ∧ size fullFront = 3
      ∧ clear_destroyed fullFront = [0]
      ∧ (clear oneBack).count = 0
      ∧ (clear oneBack).back_index = initial_back_index 3
      ∧ (clear oneBack).front_index = initial_front_index 3 := by
  decide

/-- C5: `contains` is claimed to return `true` iff the value equals some live
element.  The code scans `[front_index, back_index)`, which includes the dead
next-write slot at `front_index` and, when the deque is full with
`front_index < back_index`, covers only one slot: on `N = 3` after `push_back(7)`
the live elements are `[7]`, yet `contains(0)` returns `true` (reading the
value-initialized dead slot `0`); on a full `N = 3` deque whose surviving pushes
are `[7, 6, 5]`, `contains(6)` returns `false`.  (The source's wrapped branch
moreover reads `array[i]` with `i` undeclared.)  The empty-container part of the
claim does hold. -/
theorem C5_contains_wrong_window :
    contains oneBack 0 = true ∧ toList oneBack = [7]
      ∧ valid (initial ℕ 3) fullFrontOps = true
      ∧ modelRun [] fullFrontOps = [7, 6, 5]
      ∧ contains fullFront 6 = false
      ∧ contains (initial ℕ 3) 0 = false := by
  decide

section RingLemmas

variable {α : Type} {N : ℕ}

lemma mod_lt_of_pos (hN : 0 < N) (x : ℕ) : x % N < N := Nat.mod_lt x hN

lemma next_back_index_eq (i : ℕ) (hi : i < N) : next_back_index N i = (i + 1) % N := by
  unfold circular_deque.next_back_index circular_deque.last_index circular_deque.first_index
  by_cases h : i < N - 1
  · rw [if_pos h, Nat.mod_eq_of_lt (by omega)]
  · rw [if_neg h]
    have hEq : i + 1 = N := by omega
    rw [hEq, Nat.mod_self]

lemma previous_front_index_eq (i : ℕ) (hi : i < N) : previous_front_index N i = (i + 1) % N := by
  unfold circular_deque.previous_front_index circular_deque.last_index circular_deque.first_index
  by_cases h : i < N - 1
  · rw [if_pos h, Nat.mod_eq_of_lt (by omega)]
  · rw [if_neg h]
    have hEq : i + 1 = N := by omega
    rw [hEq, Nat.mod_self]

lemma previous_back_index_eq (i : ℕ) (hi : i < N) :
    previous_back_index N i = (i + (N - 1)) % N := by
  unfold circular_deque.previous_back_index circular_deque.last_index
  by_cases h : 0 < i
  · rw [if_pos h]
    have hEq : i + (N - 1) = (i - 1) + N := by omega
    rw [hEq, Nat.add_mod_right, Nat.mod_eq_of_lt (by omega)]
  · rw [if_neg h]
    have hEq : i = 0 := by omega
    subst hEq
    rw [Nat.zero_add, Nat.mod_eq_of_lt (by omega)]

lemma next_front_index_eq (i : ℕ) (hi : i < N) :
    next_front_index N i = (i + (N - 1)) % N := by
  unfold circular_deque.next_front_index circular_deque.last_index
  by_cases h : 0 < i
  · rw [if_pos h]
    have hEq : i + (N - 1) = (i - 1) + N := by omega
    rw [hEq, Nat.add_mod_right, Nat.mod_eq_of_lt (by omega)]
  · rw [if_neg h]
    have hEq : i = 0 := by omega
    subst hEq
    rw [Nat.zero_add, Nat.mod_eq_of_lt (by omega)]

lemma add_mod_inj (x a b : ℕ) (ha : a < N) (hb : b < N)
    (h : (x + a) % N = (x + b) % N) : a = b := by
  have h1 : x + a ≡ x + b [MOD N] := h
  have h2 : a ≡ b [MOD N] := Nat.ModEq.add_left_cancel' x h1
  have h3 : a % N = b % N := h2
  rwa [Nat.mod_eq_of_lt ha, Nat.mod_eq_of_lt hb] at h3

lemma previous_next_back (i : ℕ) (hi : i < N) :
    previous_back_index N (next_back_index N i) = i := by
  by_cases h : i < N - 1
  · have e1 : next_back_index N i = i + 1 := by
      unfold circular_deque.next_back_index circular_deque.last_index
      rw [if_pos h]
    rw [e1]
    unfold circular_deque.previous_back_index
    rw [if_pos (by omega)]
    omega
  · have e1 : next_back_index N i = 0 := by
      unfold circular_deque.next_back_index circular_deque.last_index circular_deque.first_index
      rw [if_neg h]
    rw [e1]
    unfold circular_deque.previous_back_index circular_deque.last_index
    rw [if_neg (by omega)]
    omega

lemma previous_next_front (i : ℕ) (hi : i < N) :
    previous_front_index N (next_front_index N i) = i := by
  by_cases h : 0 < i
  · have e1 : next_front_index N i = i - 1 := by
      unfold circular_deque.next_front_index
      rw [if_pos h]
    rw [e1]
    unfold circular_deque.previous_front_index circular_deque.last_index
    rw [if_pos (by omega)]
    omega
  · have e1 : next_front_index N i = N - 1 := by
      unfold circular_deque.next_front_index circular_deque.last_index
      rw [if_neg h]
    rw [e1]
    unfold circular_deque.previous_front_index circular_deque.last_index circular_deque.first_index
    rw [if_neg (by omega)]
    omega

lemma previous_back_ne (hN : 2 ≤ N) (i : ℕ) (_hi : i < N) : previous_back_index N i ≠ i := by
  unfold circular_deque.previous_back_index circular_deque.last_index
  by_cases h : 0 < i
  · rw [if_pos h]; omega
  · rw [if_neg h]; omega

lemma previous_front_ne (hN : 2 ≤ N) (i : ℕ) (_hi : i < N) : previous_front_index N i ≠ i := by
  unfold circular_deque.previous_front_index circular_deque.last_index circular_deque.first_index
  by_cases h : i < N - 1
  · rw [if_pos h]; omega
  · rw [if_neg h]; omega

end RingLemmas

section Simulation

variable {α : Type} {N : ℕ}

lemma rel_push_back (hN : 2 ≤ N) {l : List α} {s : circular_deque α N} (hrel : Rel l s)
    (hnf : l.length < N) (v : α) : Rel (l ++ [v]) (s.push_back v) := by
  obtain ⟨hc, hlen, hf, hb, hbe, helem⟩ := hrel
  have hN0 : 0 < N := by omega
  refine ⟨?_, ?_, ?_, ?_, ?_, ?_⟩
  · show s.count + 1 = (l ++ [v]).length
    simp [hc]
  · simp
    omega
  · exact hf
  · show next_back_index N s.back_index < N
    rw [next_back_index_eq s.back_index hb]
    exact mod_lt_of_pos hN0 _
  · show next_back_index N s.back_index = (s.front_index + (s.count + 1) + 1) % N
    rw [next_back_index_eq s.back_index hb, hbe, Nat.mod_add_mod]
    congr 1
  · intro k hk
    have hk2 : k < l.length + 1 := by simpa using hk
    show Function.update s.array s.back_index v ((s.front_index + 1 + k) % N) = (l ++ [v])[k]
    rcases Nat.lt_or_ge k l.length with hkl | hkl
    · have hslot : (s.front_index + 1 + k) % N ≠ s.back_index := by
        intro hEqs
        have h1 : (s.front_index + 1 + k) % N = (s.front_index + 1 + l.length) % N := by
          rw [hEqs, hbe, hc]
          congr 1
          omega
        have h2 := add_mod_inj (s.front_index + 1) k l.length (by omega) hnf h1
        omega
      rw [Function.update_noteq hslot]
      rw [List.getElem_append_left hkl]
      exact helem k hkl
    · have hkEq : k = l.length := by omega
      subst hkEq
      have hslot : (s.front_index + 1 + l.length) % N = s.back_index := by
        rw [hbe, hc]
        congr 1
        omega
      rw [hslot, Function.update_same]
      exact (List.getElem_concat_length l v l.length rfl hk).symm

lemma rel_push_front (hN : 2 ≤ N) {l : List α} {s : circular_deque α N} (hrel : Rel l s)
    (hnf : l.length < N) (v : α) : Rel (v :: l) (s.push_front v) := by
  obtain ⟨hc, hlen, hf, hb, hbe, helem⟩ := hrel
  have hN0 : 0 < N := by omega
  have hslot_all : ∀ k, (next_front_index N s.front_index + 1 + k) % N
      = (s.front_index + k) % N := by
    intro k
    rw [next_front_index_eq _ hf]
    have h1 : (s.front_index + (N - 1)) % N + 1 + k
        = (s.front_index + (N - 1)) % N + (1 + k) := by omega
    rw [h1, Nat.mod_add_mod]
    have h2 : s.front_index + (N - 1) + (1 + k) = (s.front_index + k) + N := by omega
    rw [h2, Nat.add_mod_right]
  refine ⟨?_, ?_, ?_, ?_, ?_, ?_⟩
  · show s.count + 1 = (v :: l).length
    simp [hc]
  · simp
    omega
  · show next_front_index N s.front_index < N
    rw [next_front_index_eq _ hf]
    exact mod_lt_of_pos hN0 _
  · exact hb
  · show s.back_index = (next_front_index N s.front_index + (s.count + 1) + 1) % N
    rw [next_front_index_eq _ hf]
    have h1 : (s.front_index + (N - 1)) % N + (s.count + 1) + 1
        = (s.front_index + (N - 1)) % N + (s.count + 2) := by omega
    rw [h1, Nat.mod_add_mod]
    have h2 : s.front_index + (N - 1) + (s.count + 2) = (s.front_index + s.count + 1) + N := by
      omega
    rw [h2, Nat.add_mod_right]
    exact hbe
  · intro k hk
    have hk2 : k < l.length + 1 := by simpa using hk
    show Function.update s.array s.front_index v
        ((next_front_index N s.front_index + 1 + k) % N) = (v :: l)[k]
    rw [hslot_all k]
    cases k with
    | zero =>
        have h1 : (s.front_index + 0) % N = s.front_index := by
          rw [Nat.add_zero, Nat.mod_eq_of_lt hf]
        rw [h1, Function.update_same]
        rfl
    | succ j =>
        have hjl : j < l.length := by omega
        have hne : (s.front_index + (j + 1)) % N ≠ s.front_index := by
          intro hEqs
          have h0 : (s.front_index + (j + 1)) % N = (s.front_index + 0) % N := by
            rw [hEqs, Nat.add_zero, Nat.mod_eq_of_lt hf]
          have h2 := add_mod_inj s.front_index (j + 1) 0 (by omega) (by omega) h0
          omega
        rw [Function.update_noteq hne]
        have h3 : (s.front_index + (j + 1)) % N = (s.front_index + 1 + j) % N := by
          congr 1
          omega
        rw [h3, helem j hjl, List.getElem_cons_succ]

lemma rel_pop_back (hN : 2 ≤ N) {l : List α} {s : circular_deque α N} (hrel : Rel l s)
    (hne : l ≠ []) : Rel l.dropLast s.pop_back := by
  obtain ⟨hc, hlen, hf, hb, hbe, helem⟩ := hrel
  have hN0 : 0 < N := by omega
  have hlp : 0 < l.length := List.length_pos.mpr hne
  refine ⟨?_, ?_, ?_, ?_, ?_, ?_⟩
  · show s.count - 1 = l.dropLast.length
    rw [List.length_dropLast, hc]
  · rw [List.length_dropLast]
    omega
  · exact hf
  · show previous_back_index N s.back_index < N
    rw [previous_back_index_eq _ hb]
    exact mod_lt_of_pos hN0 _
  · show previous_back_index N s.back_index = (s.front_index + (s.count - 1) + 1) % N
    rw [previous_back_index_eq _ hb, hbe, Nat.mod_add_mod]
    have h1 : s.front_index + s.count + 1 + (N - 1)
        = (s.front_index + (s.count - 1) + 1) + N := by omega
    rw [h1, Nat.add_mod_right]
  · intro k hk
    show s.array ((s.front_index + 1 + k) % N) = l.dropLast[k]
    rw [List.getElem_dropLast]
    exact helem k (by rw [List.length_dropLast] at hk; omega)

lemma rel_pop_front (hN : 2 ≤ N) {l : List α} {s : circular_deque α N} (hrel : Rel l s)
    (hne : l ≠ []) : Rel (l.drop 1) s.pop_front := by
  obtain ⟨hc, hlen, hf, hb, hbe, helem⟩ := hrel
  have hN0 : 0 < N := by omega
  have hlp : 0 < l.length := List.length_pos.mpr hne
  refine ⟨?_, ?_, ?_, ?_, ?_, ?_⟩
  · show s.count - 1 = (l.drop 1).length
    rw [List.length_drop, hc]
  · rw [List.length_drop]
    omega
  · show previous_front_index N s.front_index < N
    rw [previous_front_index_eq _ hf]
    exact mod_lt_of_pos hN0 _
  · exact hb
  · show s.back_index = (previous_front_index N s.front_index + (s.count - 1) + 1) % N
    rw [previous_front_index_eq _ hf]
    have h1 : (s.front_index + 1) % N + (s.count - 1) + 1
        = (s.front_index + 1) % N + s.count := by omega
    rw [h1, Nat.mod_add_mod]
    have h2 : s.front_index + 1 + s.count = s.front_index + s.count + 1 := by omega
    rw [h2]
    exact hbe
  · intro k hk
    have hk2 : k < l.length - 1 := by rw [List.length_drop] at hk; omega
    show s.array ((previous_front_index N s.front_index + 1 + k) % N) = (l.drop 1)[k]
    rw [previous_front_index_eq _ hf]
    have h1 : (s.front_index + 1) % N + 1 + k = (s.front_index + 1) % N + (1 + k) := by omega
    rw [h1, Nat.mod_add_mod]
    have h2 : s.front_index + 1 + (1 + k) = s.front_index + 1 + (1 + k) := rfl
    rw [helem (1 + k) (by omega)]
    rw [List.getElem_drop]

end Simulation

section Runs

variable {α : Type} {N : ℕ}

lemma rel_applyOp (hN : 2 ≤ N) {l : List α} {s : circular_deque α N} {op : Op α}
    (hrel : Rel l s) (hpre : preOp op s = true) : Rel (modelOp op l) (applyOp op s) := by
  cases op with
  | pushB v =>
      have h1 : s.full = false := by simpa [preOp] using hpre
      have h2 : ¬ s.count = N := by
        simpa [circular_deque.full, circular_deque.size, circular_deque.max_size] using h1
      have hnf : l.length < N := by
        have hc := hrel.1
        have hlen := hrel.2.1
        omega
      exact rel_push_back hN hrel hnf v
  | pushF v =>
      have h1 : s.full = false := by simpa [preOp] using hpre
      have h2 : ¬ s.count = N := by
        simpa [circular_deque.full, circular_deque.size, circular_deque.max_size] using h1
      have hnf : l.length < N := by
        have hc := hrel.1
        have hlen := hrel.2.1
        omega
      exact rel_push_front hN hrel hnf v
  | popB =>
      have h1 : s.empty = false := by simpa [preOp] using hpre
      have h2 : ¬ s.count = 0 := by
        simpa [circular_deque.empty, circular_deque.size] using h1
      have hne : l ≠ [] := by
        intro hnil
        have hc := hrel.1
        rw [hnil] at hc
        simp at hc
        exact h2 hc
      exact rel_pop_back hN hrel hne
  | popF =>
      have h1 : s.empty = false := by simpa [preOp] using hpre
      have h2 : ¬ s.count = 0 := by
        simpa [circular_deque.empty, circular_deque.size] using h1
      have hne : l ≠ [] := by
        intro hnil
        have hc := hrel.1
        rw [hnil] at hc
        simp at hc
        exact h2 hc
      exact rel_pop_front hN hrel hne

lemma rel_runOps (hN : 2 ≤ N) : ∀ (ops : List (Op α)) (l : List α) (s : circular_deque α N),
    Rel l s → valid s ops = true → Rel (modelRun l ops) (runOps s ops)
  | [], _, _, hrel, _ => hrel
  | op :: rest, l, s, hrel, hv => by
      have h1 : preOp op s = true ∧ valid (applyOp op s) rest = true := by
        simpa [valid, Bool.and_eq_true] using hv
      exact rel_runOps hN rest (modelOp op l) (applyOp op s) (rel_applyOp hN hrel h1.1) h1.2

lemma rel_initial [Inhabited α] (hN : 2 ≤ N) : Rel ([] : List α) (initial α N) := by
  refine ⟨rfl, by simp, ?_, ?_, ?_, ?_⟩
  · show N / 2 - 1 < N
    omega
  · show N / 2 < N
    omega
  · show N / 2 = (N / 2 - 1 + 0 + 1) % N
    have h1 : N / 2 - 1 + 0 + 1 = N / 2 := by omega
    rw [h1, Nat.mod_eq_of_lt (by omega)]
  · intro k hk
    simp at hk

lemma iterCollect_at_end (s : circular_deque α N) (fuel i : ℕ) (h : i = s.end_index) :
    iterCollect s fuel i = [] := by
  cases fuel with
  | zero => rfl
  | succ n => simp [iterCollect, h]

lemma iterCollect_eq_drop {l : List α} {s : circular_deque α N} (hrel : Rel l s)
    (hnf : l.length < N) :
    ∀ (fuel j : ℕ), j ≤ l.length → l.length ≤ fuel + j →
      iterCollect s fuel ((s.front_index + 1 + j) % N) = l.drop j := by
  obtain ⟨hc, hlen, hf, hb, hbe, helem⟩ := hrel
  have hN0 : 0 < N := by omega
  have hend : ∀ j, j = l.length → (s.front_index + 1 + j) % N = s.end_index := by
    intro j hj
    show _ = s.back_index
    rw [hbe, hc, hj]
    congr 1
    omega
  intro fuel
  induction fuel with
  | zero =>
      intro j hj hle
      have hj2 : j = l.length := by omega
      rw [hj2, List.drop_length]
      rfl
  | succ n ih =>
      intro j hj hle
      by_cases hj2 : j = l.length
      · rw [hj2, List.drop_length]
        exact iterCollect_at_end s (n + 1) _ (hend _ rfl)
      · have hjlt : j < l.length := by omega
        have hne2 : (s.front_index + 1 + j) % N ≠ s.end_index := by
          intro hEqs
          have h1 : (s.front_index + 1 + j) % N = (s.front_index + 1 + l.length) % N := by
            rw [hEqs, (hend l.length rfl).symm]
          have h2 := add_mod_inj (s.front_index + 1) j l.length (by omega) hnf h1
          omega
        simp only [iterCollect]
        rw [if_neg hne2]
        rw [List.drop_eq_getElem_cons hjlt]
        congr 1
        · exact helem j hjlt
        · have hlt2 : (s.front_index + 1 + j) % N < N := mod_lt_of_pos hN0 _
          rw [next_back_index_eq _ hlt2, Nat.mod_add_mod]
          have h3 : s.front_index + 1 + j + 1 = s.front_index + 1 + (j + 1) := by omega
          rw [h3]
          exact ih (j + 1) (by omega) (by omega)

lemma toList_eq_of_rel {l : List α} {s : circular_deque α N} (_hN : 2 ≤ N) (hrel : Rel l s)
    (hnf : l.length < N) : toList s = l := by
  have hf : s.front_index < N := hrel.2.2.1
  have h0 := iterCollect_eq_drop hrel hnf N 0 (by omega) (by omega)
  rw [List.drop_zero] at h0
  show iterCollect s N s.begin_index = l
  have hbg : s.begin_index = (s.front_index + 1 + 0) % N := by
    show previous_front_index N s.front_index = _
    rw [previous_front_index_eq _ hf]
  rw [hbg]
  exact h0

lemma count_run : ∀ (ops : List (Op α)) (s : circular_deque α N), valid s ops = true →
    (runOps s ops).count + countPops ops = s.count + countPushes ops
  | [], s, _ => by simp [runOps, countPops, countPushes]
  | op :: rest, s, hv => by
      have h1 : preOp op s = true ∧ valid (applyOp op s) rest = true := by
        simpa [valid, Bool.and_eq_true] using hv
      have ih := count_run rest (applyOp op s) h1.2
      have e3 : runOps s (op :: rest) = runOps (applyOp op s) rest := rfl
      cases op with
      | pushB v =>
          have e1 : countPushes (Op.pushB v :: rest) = countPushes rest + 1 := by
            simp [countPushes, List.filter_cons, isPush]
          have e2 : countPops (Op.pushB v :: rest) = countPops rest := by
            simp [countPops, List.filter_cons, isPush]
          have e4 : (applyOp (Op.pushB v) s).count = s.count + 1 := rfl
          rw [e3, e1, e2]
          omega
      | pushF v =>
          have e1 : countPushes (Op.pushF v :: rest) = countPushes rest + 1 := by
            simp [countPushes, List.filter_cons, isPush]
          have e2 : countPops (Op.pushF v :: rest) = countPops rest := by
            simp [countPops, List.filter_cons, isPush]
          have e4 : (applyOp (Op.pushF v) s).count = s.count + 1 := rfl
          rw [e3, e1, e2]
          omega
      | popB =>
          have hpos : ¬ s.count = 0 := by
            have hx : s.empty = false := by simpa [preOp] using h1.1
            simpa [circular_deque.empty, circular_deque.size] using hx
          have e1 : countPushes (Op.popB :: rest) = countPushes rest := by
            simp [countPushes, List.filter_cons, isPush]
          have e2 : countPops (Op.popB :: rest) = countPops rest + 1 := by
            simp [countPops, List.filter_cons, isPush]
          have e4 : (applyOp (Op.popB : Op α) s).count = s.count - 1 := rfl
          rw [e3, e1, e2]
          omega
      | popF =>
          have hpos : ¬ s.count = 0 := by
            have hx : s.empty = false := by simpa [preOp] using h1.1
            simpa [circular_deque.empty, circular_deque.size] using hx
          have e1 : countPushes (Op.popF :: rest) = countPushes rest := by
            simp [countPushes, List.filter_cons, isPush]
          have e2 : countPops (Op.popF :: rest) = countPops rest + 1 := by
            simp [countPops, List.filter_cons, isPush]
          have e4 : (applyOp (Op.popF : Op α) s).count = s.count - 1 := rfl
          rw [e3, e1, e2]
          omega

end Runs

section ClaimTheorems

variable {α : Type} {N : ℕ}

/-- C3 (amended): for every interleaving of pushes and pops that respects the source
preconditions, provided the deque is not full at the point of observation, stepping
an iterator forward from `begin()` until it equals `end()` visits exactly the
currently-live elements in front-to-back logical order — the sequence of surviving
pushes — regardless of how often the ring indices have wrapped.  (When the deque is
full, `begin() == end()` and the traversal visits nothing.) -/
theorem C3_iteration_matches_surviving_pushes [Inhabited α] (hN : 2 ≤ N)
    (ops : List (Op α)) (hv : valid (initial α N) ops = true)
    (hnf : full (runOps (initial α N) ops) = false) :
    toList (runOps (initial α N) ops) = modelRun [] ops := by
  have hrel := rel_runOps hN ops [] (initial α N) (rel_initial hN) hv
  have hc := hrel.1
  have hlen := hrel.2.1
  have hcN : ¬ (runOps (initial α N) ops).count = N := by
    simpa [circular_deque.full, circular_deque.size, circular_deque.max_size] using hnf
  exact toList_eq_of_rel hN hrel (by omega)

/-- Witness for C3 at a concrete mixed run on `N = 3`. -/
theorem C3_iteration_matches_surviving_pushes_witness :
    toList (runOps (initial ℕ 3) mixedOps) = modelRun [] mixedOps :=
  C3_iteration_matches_surviving_pushes (by decide) mixedOps (by decide) (by decide)

/-- C6: for every `N ≥ 2` and every operation sequence respecting the source
preconditions, `size()` equals the number of pushes minus the number of pops, and
`full()` holds iff `size() == N`.  (Every prefix of a valid sequence is itself a
valid sequence, so this covers every intermediate state as well.) -/
theorem C6_size_is_pushes_minus_pops [Inhabited α] (_hN : 2 ≤ N)
    (ops : List (Op α)) (hv : valid (initial α N) ops = true) :
    size (runOps (initial α N) ops) = countPushes ops - countPops ops
    ∧ countPops ops ≤ countPushes ops
    ∧ (full (runOps (initial α N) ops) = true ↔ size (runOps (initial α N) ops) = N) := by
  have h := count_run ops (initial α N) hv
  have h0 : (initial α N).count = 0 := rfl
  refine ⟨?_, by omega, ?_⟩
  · show (runOps (initial α N) ops).count = countPushes ops - countPops ops
    omega
  · simp [circular_deque.full, circular_deque.size, circular_deque.max_size]

/-- Witness for C6 at a concrete mixed run on `N = 3`. -/
theorem C6_size_is_pushes_minus_pops_witness :
    size (runOps (initial ℕ 3) mixedOps) = countPushes mixedOps - countPops mixedOps
    ∧ countPops mixedOps ≤ countPushes mixedOps
    ∧ (full (runOps (initial ℕ 3) mixedOps) = true
        ↔ size (runOps (initial ℕ 3) mixedOps) = 3) :=
  C6_size_is_pushes_minus_pops (by decide) mixedOps (by decide)

/-- C7: in every reachable state, `begin()` sits at `previous_front_index` — the
slot `front()` reads, which holds the first live element in forward ring order when
the deque is non-empty — `end()` sits at `back_index`, and an empty deque has
`begin() == end()`. -/
theorem C7_begin_end_positions [Inhabited α] (hN : 2 ≤ N)
    (ops : List (Op α)) (hv : valid (initial α N) ops = true) :
    front (runOps (initial α N) ops)
        = (runOps (initial α N) ops).array (begin_index (runOps (initial α N) ops))
    ∧ begin_index (runOps (initial α N) ops)
        = previous_front_index N (runOps (initial α N) ops).front_index
    ∧ end_index (runOps (initial α N) ops) = (runOps (initial α N) ops).back_index
    ∧ (∀ hk : 0 < (modelRun [] ops).length,
        (runOps (initial α N) ops).array (begin_index (runOps (initial α N) ops))
          = (modelRun [] ops)[0])
    ∧ (size (runOps (initial α N) ops) = 0 →
        begin_index (runOps (initial α N) ops) = end_index (runOps (initial α N) ops)) := by
  have hrel := rel_runOps hN ops [] (initial α N) (rel_initial hN) hv
  obtain ⟨hc, hlen, hf, hb, hbe, helem⟩ := hrel
  refine ⟨rfl, rfl, rfl, ?_, ?_⟩
  · intro hk
    have hbg : begin_index (runOps (initial α N) ops)
        = ((runOps (initial α N) ops).front_index + 1 + 0) % N := by
      show previous_front_index N _ = _
      rw [previous_front_index_eq _ hf]
    rw [hbg]
    exact helem 0 hk
  · intro h0
    have h0c : (runOps (initial α N) ops).count = 0 := h0
    have hbg : begin_index (runOps (initial α N) ops)
        = ((runOps (initial α N) ops).front_index + 1) % N := by
      show previous_front_index N _ = _
      rw [previous_front_index_eq _ hf]
    have hed : end_index (runOps (initial α N) ops)
        = ((runOps (initial α N) ops).front_index + 1) % N := by
      show (runOps (initial α N) ops).back_index = _
      rw [hbe, h0c]
    rw [hbg, hed]

/-- Witness for C7 at a concrete mixed run on `N = 3`. -/
theorem C7_begin_end_positions_witness :
    front (runOps (initial ℕ 3) mixedOps)
        = (runOps (initial ℕ 3) mixedOps).array (begin_index (runOps (initial ℕ 3) mixedOps))
    ∧ begin_index (runOps (initial ℕ 3) mixedOps)
        = previous_front_index 3 (runOps (initial ℕ 3) mixedOps).front_index
    ∧ end_index (runOps (initial ℕ 3) mixedOps) = (runOps (initial ℕ 3) mixedOps).back_index
    ∧ (∀ hk : 0 < (modelRun [] mixedOps).length,
        (runOps (initial ℕ 3) mixedOps).array (begin_index (runOps (initial ℕ 3) mixedOps))
          = (modelRun [] mixedOps)[0])
    ∧ (size (runOps (initial ℕ 3) mixedOps) = 0 →
        begin_index (runOps (initial ℕ 3) mixedOps)
          = end_index (runOps (initial ℕ 3) mixedOps)) :=
  C7_begin_end_positions (by decide) mixedOps (by decide)

/-- C8: on a non-full deque with in-range cursors, `push_back(v)` makes `back()`
read `v` and `push_front(v)` makes `front()` read `v`; popping the pushed element
returns `size()` to its previous value, after which `back()`/`front()` again reads
the previous boundary element. -/
theorem C8_push_read_roundtrip (hN : 2 ≤ N) (s : circular_deque α N) (v : α)
    (hf : s.front_index < N) (hb : s.back_index < N) (_hnf : s.count < N) :
    back (s.push_back v) = v
    ∧ front (s.push_front v) = v
    ∧ size (s.push_back v).pop_back = size s
    ∧ size (s.push_front v).pop_front = size s
    ∧ back (s.push_back v).pop_back = back s
    ∧ front (s.push_front v).pop_front = front s := by
  refine ⟨?_, ?_, ?_, ?_, ?_, ?_⟩
  · show Function.update s.array s.back_index v
        (previous_back_index N (next_back_index N s.back_index)) = v
    rw [previous_next_back s.back_index hb, Function.update_same]
  · show Function.update s.array s.front_index v
        (previous_front_index N (next_front_index N s.front_index)) = v
    rw [previous_next_front s.front_index hf, Function.update_same]
  · show s.count + 1 - 1 = s.count
    omega
  · show s.count + 1 - 1 = s.count
    omega
  · show Function.update s.array s.back_index v
        (previous_back_index N (previous_back_index N (next_back_index N s.back_index)))
      = back s
    rw [previous_next_back s.back_index hb,
      Function.update_noteq (previous_back_ne hN s.back_index hb)]
    rfl
  · show Function.update s.array s.front_index v
        (previous_front_index N (previous_front_index N (next_front_index N s.front_index)))
      = front s
    rw [previous_next_front s.front_index hf,
      Function.update_noteq (previous_front_ne hN s.front_index hf)]
    rfl

/-- Witness for C8 on the freshly constructed `N = 3` deque with value `5`. -/
theorem C8_push_read_roundtrip_witness :
    back ((initial ℕ 3).push_back 5) = 5
    ∧ front ((initial ℕ 3).push_front 5) = 5
    ∧ size ((initial ℕ 3).push_back 5).pop_back = size (initial ℕ 3)
    ∧ size ((initial ℕ 3).push_front 5).pop_front = size (initial ℕ 3)
    ∧ back ((initial ℕ 3).push_back 5).pop_back = back (initial ℕ 3)
    ∧ front ((initial ℕ 3).push_front 5).pop_front = front (initial ℕ 3) :=
  C8_push_read_roundtrip (by decide) (initial ℕ 3) 5 (by decide) (by decide) (by decide)

/-- C9: in every reachable state, `(back_index - front_index) mod N` (computed as
`(back_index + N - front_index) % N` over in-range cursors) equals
`(count + 1) mod N`; consequently a full deque has the same cursor distance as an
empty one, `begin() == end()`, and the half-open forward traversal from `begin()`
to `end()` denotes zero elements. -/
theorem C9_cursor_distance_invariant [Inhabited α] (hN : 2 ≤ N)
    (ops : List (Op α)) (hv : valid (initial α N) ops = true) :
    ((runOps (initial α N) ops).back_index + N - (runOps (initial α N) ops).front_index) % N
        = ((runOps (initial α N) ops).count + 1) % N
    ∧ ((runOps (initial α N) ops).count = N →
        begin_index (runOps (initial α N) ops) = end_index (runOps (initial α N) ops)
        ∧ toList (runOps (initial α N) ops) = []) := by
  have hrel := rel_runOps hN ops [] (initial α N) (rel_initial hN) hv
  obtain ⟨hc, hlen, hf, hb, hbe, -⟩ := hrel
  set s := runOps (initial α N) ops with hs
  constructor
  · have h1 : (s.back_index + N - s.front_index) + s.front_index = s.back_index + N := by
      omega
    have h2 : (s.back_index + N) % N = (s.count + 1 + s.front_index) % N := by
      rw [Nat.add_mod_right, Nat.mod_eq_of_lt hb, hbe]
      congr 1
      omega
    have key : ((s.back_index + N - s.front_index) + s.front_index) % N
        = ((s.count + 1) + s.front_index) % N := by
      rw [h1]
      exact h2
    exact Nat.ModEq.add_right_cancel' s.front_index key
  · intro hfull
    have hbeg : begin_index s = (s.front_index + 1) % N := by
      show previous_front_index N s.front_index = _
      exact previous_front_index_eq _ hf
    have hend : end_index s = (s.front_index + 1) % N := by
      show s.back_index = _
      rw [hbe, hfull]
      have h3 : s.front_index + N + 1 = (s.front_index + 1) + N := by omega
      rw [h3, Nat.add_mod_right]
    refine ⟨by rw [hbeg, hend], ?_⟩
    show iterCollect s N s.begin_index = []
    apply iterCollect_at_end
    show s.begin_index = s.end_index
    rw [hbeg, hend]

/-- Witness for C9 at a concrete full run on `N = 3` (three `push_front` calls),
which also exercises the full-deque consequence. -/
theorem C9_cursor_distance_invariant_witness :
    ((runOps (initial ℕ 3) fullFrontOps).back_index + 3
        - (runOps (initial ℕ 3) fullFrontOps).front_index) % 3
        = ((runOps (initial ℕ 3) fullFrontOps).count + 1) % 3
    ∧ ((runOps (initial ℕ 3) fullFrontOps).count = 3 →
        begin_index (runOps (initial ℕ 3) fullFrontOps)
          = end_index (runOps (initial ℕ 3) fullFrontOps)
        ∧ toList (runOps (initial ℕ 3) fullFrontOps) = []) :=
  C9_cursor_distance_invariant (by decide) fullFrontOps (by decide)

/-- C10: `push_back` and `pop_back` leave `front_index` unchanged and touch no
storage slot other than the one at the back cursor — `push_back` writes only at
`back_index`, `pop_back` writes nothing and invokes the destructor exactly on the
slot at `back_index`; symmetrically `push_front`/`pop_front` leave `back_index`
unchanged and touch only the slot at `front_index`. -/
theorem C10_frame_effects (s : circular_deque α N) (v : α) :
    (s.push_back v).front_index = s.front_index
    ∧ (∀ j, j = s.back_index ∨ (s.push_back v).array j = s.array j)
    ∧ s.pop_back.front_index = s.front_index
    ∧ s.pop_back.array = s.array
    ∧ pop_back_destroyed s = s.back_index
    ∧ (s.push_front v).back_index = s.back_index
    ∧ (∀ j, j = s.front_index ∨ (s.push_front v).array j = s.array j)
    ∧ s.pop_front.back_index = s.back_index
    ∧ s.pop_front.array = s.array
    ∧ pop_front_destroyed s = s.front_index := by
  refine ⟨rfl, ?_, rfl, rfl, rfl, rfl, ?_, rfl, rfl, rfl⟩
  · intro j
    by_cases h : j = s.back_index
    · exact Or.inl h
    · right
      show Function.update s.array s.back_index v j = s.array j
      exact Function.update_noteq h v s.array
  · intro j
    by_cases h : j = s.front_index
    · exact Or.inl h
    · right
      show Function.update s.array s.front_index v j = s.array j
      exact Function.update_noteq h v s.array

end ClaimTheorems
